import Mathlib

/-!
Shallow embedding of `src/zfs.py`, a point-in-time ZFS monitoring snapshot
collector.  Rows of parsed command/file output are `List (List String)`;
Python dicts are association lists with last-write-wins update semantics;
Python exceptions are `Except PyErr`; CPython float division in the ARC
hit-rate computation is modelled by exact rational arithmetic on `ℚ`.
External command output and kernel pseudo-file contents are parameters of
the corresponding definitions, so every definition is a pure function of
the textual inputs the Python code consumes.
-/

/-- Python exception classes that `zfs.py` can raise. -/
inductive PyErr where
  | keyError
  | valueError
  | indexError
  | ioError
deriving DecidableEq, Repr

/-- A row of whitespace- or tab-split fields, as produced by `run`/`read_file`. -/
abbrev Row := List String

/-- A sequence of rows. -/
abbrev Rows := List (List String)

/-- Lookup in a Python dict modelled as an association list (`m[k]`, as `Option`). -/
def dlookup {α : Type} : List (String × α) → String → Option α
  | [], _ => none
  | (k, v) :: m, key => if k = key then some v else dlookup m key

/-- Python dict assignment `m[key] = v`: overwrite in place if present, else append. -/
def dinsert {α : Type} : List (String × α) → String → α → List (String × α)
  | [], key, v => [(key, v)]
  | (k, w) :: m, key, v =>
      if k = key then (key, v) :: m else (k, w) :: dinsert m key v

theorem dlookup_nil {α : Type} (key : String) : dlookup ([] : List (String × α)) key = none := rfl

theorem dlookup_dinsert_self {α : Type} (m : List (String × α)) (k : String) (v : α) :
    dlookup (dinsert m k v) k = some v := by
  induction m with
  | nil => simp [dinsert, dlookup]
  | cons kv m ih =>
      obtain ⟨k', w⟩ := kv
      by_cases hk : k' = k
      · simp [dinsert, dlookup, hk]
      · simp [dinsert, dlookup, hk, ih]

theorem dlookup_dinsert_ne {α : Type} (m : List (String × α)) (k key : String) (v : α)
    (h : key ≠ k) : dlookup (dinsert m k v) key = dlookup m key := by
  have h' : k ≠ key := Ne.symm h
  induction m with
  | nil => simp [dinsert, dlookup, h']
  | cons kv m ih =>
      obtain ⟨k', w⟩ := kv
      by_cases hk : k' = k
      · simp [dinsert, dlookup, hk, h']
      · by_cases h2 : k' = key
        · simp [dinsert, dlookup, hk, h2, h]
        · simp [dinsert, dlookup, hk, h2, ih]

theorem dlookup_dinsert {α : Type} (m : List (String × α)) (k key : String) (v : α) :
    dlookup (dinsert m k v) key = if key = k then some v else dlookup m key := by
  by_cases h : key = k
  · subst h; simp [dlookup_dinsert_self]
  · simp [h, dlookup_dinsert_ne m k key v h]

/-- Membership of a key implies membership after any further `dinsert`. -/
theorem dlookup_dinsert_isSome {α : Type} (m : List (String × α)) (k key : String) (v : α)
    (h : (dlookup m key).isSome = true) : (dlookup (dinsert m k v) key).isSome = true := by
  by_cases hk : key = k <;> simp [dlookup_dinsert, hk, h]

/-- The ASCII whitespace characters matched by Python's regex `\s` (ASCII fragment). -/
def isPyWs (c : Char) : Bool :=
  c = ' ' || c = '\t' || c = '\n' || c = '\r' || c = '\x0b' || c = '\x0c'

/-- Models `re.split(r'\s+', s)` on a list of characters: tokens between maximal
whitespace runs, keeping the empty tokens that arise at the two boundaries. -/
def splitWsChars : List Char → List String
  | [] => [""]
  | c :: cs =>
      let r := splitWsChars cs
      if isPyWs c then
        match cs with
        | [] => "" :: r
        | c2 :: _ => if isPyWs c2 then r else "" :: r
      else
        match r with
        | t :: ts => (c.toString ++ t) :: ts
        | [] => [c.toString]

/-- Models `re.split(r'\s+', s)` for a Python string. -/
def pySplitWs (s : String) : List String := splitWsChars s.toList

/-- Models Python `str.isdigit` (ASCII fragment): nonempty and all decimal digits. -/
def pyIsDigit (s : String) : Bool := !s.isEmpty && s.toList.all Char.isDigit

/-- Models Python `s.startswith(pre)`: the prefix's characters head the string. -/
def pyStartsWith (s pre : String) : Bool := pre.toList.isPrefixOf s.toList

/-- Decimal value of a digit string (the value `int(s)` returns when `s.isdigit()`). -/
def digitsVal (s : String) : Nat :=
  s.toList.foldl (fun a c => 10 * a + (c.toNat - 48)) 0

/-- Decimal value of a list of digit characters. -/
def natOfDigits (l : List Char) : Nat := l.foldl (fun a c => 10 * a + (c.toNat - 48)) 0

/-- Digit tail of a Python integer literal: digits optionally separated by single
underscores, returned with the underscores removed; `none` if malformed. -/
def undRest : List Char → Option (List Char)
  | [] => some []
  | '_' :: c :: cs => if c.isDigit then (undRest cs).map (c :: ·) else none
  | ['_'] => none
  | c :: cs => if c.isDigit then (undRest cs).map (c :: ·) else none

/-- Unsigned body of a Python integer literal: a digit followed by `undRest`. -/
def pyUnsigned (cs : List Char) : Option Nat :=
  match cs with
  | [] => none
  | c :: rest =>
      if c.isDigit then (undRest rest).map (fun ds => natOfDigits (c :: ds)) else none

/-- Strip leading and trailing Python whitespace from a character list. -/
def stripWs (cs : List Char) : List Char :=
  ((cs.dropWhile isPyWs).reverse.dropWhile isPyWs).reverse

/-- Models CPython `int(s)` on a decimal string: optional surrounding whitespace,
optional sign, digits with optional single underscore separators.  `none` models
a raised `ValueError`. -/
def pyInt? (s : String) : Option Int :=
  match stripWs s.toList with
  | '+' :: rest => (pyUnsigned rest).map Int.ofNat
  | '-' :: rest => (pyUnsigned rest).map (fun n => -(n : Int))
  | rest => (pyUnsigned rest).map Int.ofNat

/-- Fractional value of a digit list read after a decimal point. -/
def pyFracVal (ds : List Char) : ℚ := (natOfDigits ds : ℚ) / ((10 : ℚ) ^ ds.length)

/-- Unsigned body of a CPython `float(s)` decimal literal (fixed-point fragment:
digits, optional point, optional fractional digits; no exponent/inf/nan, which
never occur in the fields `zfs.py` converts). -/
def pyFloatBody (cs : List Char) : Option ℚ :=
  let intPart := cs.takeWhile Char.isDigit
  let rest := cs.dropWhile Char.isDigit
  match rest with
  | [] => if intPart.isEmpty then none else some (natOfDigits intPart : ℚ)
  | '.' :: frac =>
      if frac.all Char.isDigit then
        if intPart.isEmpty && frac.isEmpty then none
        else some ((natOfDigits intPart : ℚ) + pyFracVal frac)
      else none
  | _ => none

/-- Models CPython `float(s)` on the decimal strings `zfs.py` encounters.
`none` models a raised `ValueError`. -/
def pyFloat? (s : String) : Option ℚ :=
  match stripWs s.toList with
  | '+' :: rest => pyFloatBody rest
  | '-' :: rest => (pyFloatBody rest).map Neg.neg
  | rest => pyFloatBody rest

/-- Python sequence indexing `xs[i]`: `IndexError` when out of range. -/
def pyNth {α : Type} (xs : List α) (i : Nat) : Except PyErr α :=
  match xs.get? i with
  | some v => .ok v
  | none => .error .indexError

/-- Python `int(s)` as an `Except` computation (raises `ValueError`). -/
def pyIntE (s : String) : Except PyErr Int :=
  match pyInt? s with
  | some n => .ok n
  | none => .error .valueError

/-- Python `float(s)` as an `Except` computation (raises `ValueError`). -/
def pyFloatE (s : String) : Except PyErr ℚ :=
  match pyFloat? s with
  | some q => .ok q
  | none => .error .valueError

/-- Python dict subscript `m[k]` (raises `KeyError`). -/
def pyLookup {α : Type} (m : List (String × α)) (k : String) : Except PyErr α :=
  match dlookup m k with
  | some v => .ok v
  | none => .error .keyError

/-! ## The components of `zfs.py` -/

/-- Models `read_file fn skip` with the default split `\s+`: a kernel stat
pseudo-file is its list of lines as returned by `readlines` (each possibly
ending in a newline character); the first `skip` lines are discarded and the
rest are whitespace-split. -/
def read_file (lines : List String) (skip : Nat) : Rows :=
  (lines.drop skip).map pySplitWs

/-- The two candidate kernel I/O-stat files of one pool: `.../iostats` and the
legacy `.../io`; `none` means reading that file raises (missing/unreadable). -/
structure KFiles where
  iostats : Option (List String)
  legacy : Option (List String)
deriving DecidableEq, Repr

/-- The file-selection part of `pool_io_stats`: try `iostats`, and on any
failure of that read fall back to the legacy file. -/
def ioSelect (fs : KFiles) : Option (List String) :=
  match fs.iostats with
  | some ls => some ls
  | none => fs.legacy

/-- The unguarded tail of `pool_io_stats`: build the counter dict from the
positional zip of header row `r[0]` and value row `r[1]`, keeping only pairs
whose value is purely numeric. -/
def ioStep (m : List (String × Nat)) (pr : String × String) : List (String × Nat) :=
  if pyIsDigit pr.2 then dinsert m pr.1 (digitsVal pr.2) else m

/-- The dict comprehension of `pool_io_stats` over the zipped pairs. -/
def ioPairs (hrow vrow : Row) : List (String × Nat) :=
  (hrow.zip vrow).foldl ioStep []

/-- Indexing `r[0]`/`r[1]` and the dict comprehension of `pool_io_stats`. -/
def ioProcess (r : Rows) : Except PyErr (List (String × Nat)) :=
  match pyNth r 0 with
  | .error e => .error e
  | .ok hrow =>
      match pyNth r 1 with
      | .error e => .error e
      | .ok vrow => .ok (ioPairs hrow vrow)

/-- Models `pool_io_stats`: read `iostats` with a 1-line header skip, on any
failure read the legacy `io` file with the same skip, then zip header and
value rows into a counter dict.  Only the first read is guarded by the
`try`/`except`. -/
def pool_io_stats (fs : KFiles) : Except PyErr (List (String × Nat)) :=
  match ioSelect fs with
  | none => .error .ioError
  | some ls => ioProcess (read_file ls 1)

/-- One step of the scrub-flag loop of `pool_status` over a status-report row:
a `pool:` row switches the current pool and initialises its flag to `false`
(raising `IndexError` when the row has no second field, as `l[1]` does); a
`scan:` row whose next three fields joined by single spaces read exactly
`scrub in progress` sets the current pool's flag to `true`. -/
def scrubStep : String × List (String × Bool) → Row → Option (String × List (String × Bool))
  | _, [] => none
  | (cur, m), f :: rest =>
      if f = "pool:" then
        match rest with
        | [] => none
        | q :: _ => some (q, dinsert m q false)
      else if f = "scan:" && String.intercalate " " (rest.take 3) = "scrub in progress" then
        some (cur, dinsert m cur true)
      else some (cur, m)

/-- The scrub-flag loop of `pool_status`, folded from current pool `""` . -/
def scrubGo (st : String × List (String × Bool)) (rows : Rows) :
    Option (String × List (String × Bool)) :=
  rows.foldlM scrubStep st

/-- The scrub map computed by `pool_status` (first loop). -/
def pool_status_scrub (rows : Rows) : Option (List (String × Bool)) :=
  (scrubGo ("", []) rows).map (·.2)

/-- A device error-counter record of `pool_status`. -/
structure Errs where
  read : Int
  write : Int
  cksum : Int
deriving DecidableEq, Repr

/-- The error record of one device row: fields at 0-indexed positions 2-4
parsed with `int`, defaulting to all zeroes when any of the three raises. -/
def vdevRowRecord (x : Row) : Errs :=
  match pyInt? (x.getD 2 ""), pyInt? (x.getD 3 ""), pyInt? (x.getD 4 "") with
  | some r, some w, some c => ⟨r, w, c⟩
  | _, _, _ => ⟨0, 0, 0⟩

/-- One step of the device-error loop of `pool_status`: skip rows with fewer
than 5 fields or whose first field does not start with `/`. -/
def vdevErrStep (m : List (String × Errs)) (x : Row) : List (String × Errs) :=
  if x.length < 5 then m
  else if !pyStartsWith (x.headD "") "/" then m
  else dinsert m (x.headD "") (vdevRowRecord x)

/-- The device-error map computed by `pool_status` (second loop). -/
def pool_status_errors (rows : Rows) : List (String × Errs) :=
  rows.foldl vdevErrStep []

/-- Models `pool_status` on the whitespace-split rows of `zpool status -Pp`:
the scrub loop runs first (its `IndexError` aborts everything), then the
device-error loop. -/
def pool_status (rows : Rows) :
    Option (List (String × Bool) × List (String × Errs)) :=
  match pool_status_scrub rows with
  | none => none
  | some s => some (s, pool_status_errors rows)

/-- A pool record built by `pool_list`. -/
structure PoolRec where
  name : String
  size : Int
  alloc : Int
  free : Int
  frag : Int
  usage : Int
  dedup : ℚ
  scrub : Nat
  online : Nat
  ioCounters : List (String × Nat)
deriving DecidableEq, Repr

/-- The dict-display body of `pool_list` for one pool row, with the fields
evaluated in Python's source order: `x[0]`, `int(x[1])` .. `int(x[5])`,
`float(x[6])`, `int(scrub[x[0]])`, `int(x[7] == 'ONLINE')`,
`pool_io_stats(x[0])`.  `fs` maps a pool name to its kernel stat files. -/
def poolRecord (scrub : List (String × Bool)) (fs : String → KFiles) (x : Row) :
    Except PyErr PoolRec := do
  let name ← pyNth x 0
  let s1 ← pyNth x 1
  let size ← pyIntE s1
  let s2 ← pyNth x 2
  let alloc ← pyIntE s2
  let s3 ← pyNth x 3
  let free ← pyIntE s3
  let s4 ← pyNth x 4
  let frag ← pyIntE s4
  let s5 ← pyNth x 5
  let usage ← pyIntE s5
  let s6 ← pyNth x 6
  let dd ← pyFloatE s6
  let sc ← pyLookup scrub name
  let h7 ← pyNth x 7
  let counters ← pool_io_stats (fs name)
  return { name := name, size := size, alloc := alloc, free := free, frag := frag,
           usage := usage, dedup := dd, scrub := if sc then 1 else 0,
           online := if h7 = "ONLINE" then 1 else 0, ioCounters := counters }

/-- Models `pool_list` on the tab-split rows of the structured pool listing:
a dict comprehension keyed by `x[0]`, failing on the first row whose record
construction raises. -/
def poolStep (scrub : List (String × Bool)) (fs : String → KFiles)
    (m : List (String × PoolRec)) (x : Row) : Except PyErr (List (String × PoolRec)) :=
  match poolRecord scrub fs x with
  | .error e => .error e
  | .ok rec => .ok (dinsert m rec.name rec)

def pool_list (scrub : List (String × Bool)) (fs : String → KFiles) (rows : Rows) :
    Except PyErr (List (String × PoolRec)) :=
  rows.foldlM (poolStep scrub fs) []

/-- A device record built by `vdev_list`. -/
structure VdevRec where
  name : String
  size : Nat
  alloc : Nat
  free : Nat
  frag : Nat
  usage : Nat
  online : Nat
  errors : Errs
deriving DecidableEq, Repr

/-- The dict-display body of `vdev_list` for one retained device row, fields
in Python's source order; numeric fields use `int(x[i]) if x[i].isdigit()
else 0`, the health string is `x[9]`, and the error record is `errors[x[0]]`
(raising `KeyError` when absent). -/
def vdevRecord (errs : List (String × Errs)) (x : Row) : Except PyErr VdevRec := do
  let name ← pyNth x 0
  let s1 ← pyNth x 1
  let s2 ← pyNth x 2
  let s3 ← pyNth x 3
  let s6 ← pyNth x 6
  let s7 ← pyNth x 7
  let h9 ← pyNth x 9
  let er ← pyLookup errs name
  return { name := name,
           size := if pyIsDigit s1 then digitsVal s1 else 0,
           alloc := if pyIsDigit s2 then digitsVal s2 else 0,
           free := if pyIsDigit s3 then digitsVal s3 else 0,
           frag := if pyIsDigit s6 then digitsVal s6 else 0,
           usage := if pyIsDigit s7 then digitsVal s7 else 0,
           online := if h9 = "ONLINE" then 1 else 0,
           errors := er }

/-- Models `vdev_list` on the tab-split rows of `zpool list -PHvp`: the
comprehension retains only rows whose first field starts with `/` (indexing
`x[0]` raises on an empty row), keyed by `x[0]`. -/
def vdevStep (errs : List (String × Errs)) (m : List (String × VdevRec)) (x : Row) :
    Except PyErr (List (String × VdevRec)) :=
  match x with
  | [] => .error .indexError
  | f :: _ =>
      if pyStartsWith f "/" then
        match vdevRecord errs x with
        | .error e => .error e
        | .ok rec => .ok (dinsert m f rec)
      else .ok m

def vdev_list (errs : List (String × Errs)) (rows : Rows) :
    Except PyErr (List (String × VdevRec)) :=
  rows.foldlM (vdevStep errs) []

/-- One row of the `slab_usage` comprehension: evaluate `x[2]` (raising
`IndexError` on a short row), then add its value when it is purely numeric. -/
def slabStep (acc : Nat) (x : Row) : Except PyErr Nat :=
  match pyNth x 2 with
  | .error e => .error e
  | .ok f => .ok (if pyIsDigit f then acc + digitsVal f else acc)

/-- Models `slab_usage`: sum `int(x[2])` over the rows of the slab file (read
with the default 2-line header skip) whose third field is purely numeric;
evaluating `x[2]` on a row with fewer than three fields raises `IndexError`. -/
def slab_usage (lines : List String) : Except PyErr Nat :=
  (read_file lines 2).foldlM slabStep 0

/-- Tier-1 (ARC) part of the `arc_stats` result. -/
structure ArcL1 where
  size : Nat
  hitrate : ℚ
  free : Nat
  meta_used : Nat
  meta_limit : Nat
deriving DecidableEq, Repr

/-- Tier-2 (L2ARC) part of the `arc_stats` result. -/
structure ArcL2 where
  usage : Nat
  usage_actual : Nat
  hitrate : ℚ
  bytes_read : Nat
  bytes_written : Nat
  io_error : Nat
  cksum_bad : Nat
deriving DecidableEq, Repr

/-- The two cache-tier records returned by `arc_stats`. -/
structure ArcStats where
  l1 : ArcL1
  l2 : ArcL2
deriving DecidableEq, Repr

/-- Models `arc_stats` given the counter map `r` built from the arcstats file
(a total map models the non-negative integer counters of the claim; CPython's
float division is modelled by exact division on `ℚ`).  `if l1` in Python is
`l1 ≠ 0`. -/
def arc_stats (r : String → Nat) : ArcStats :=
  let t1 := r "hits" + r "misses"
  let t2 := r "l2_hits" + r "l2_misses"
  { l1 := { size := r "size"
          , hitrate := if t1 ≠ 0 then (r "hits" : ℚ) / (t1 : ℚ) * 100 else 0
          , free := r "memory_available_bytes"
          , meta_used := r "arc_meta_used"
          , meta_limit := r "arc_meta_limit" }
  , l2 := { usage := r "l2_size"
          , usage_actual := r "l2_asize"
          , hitrate := if t2 ≠ 0 then (r "l2_hits" : ℚ) / (t2 : ℚ) * 100 else 0
          , bytes_read := r "l2_read_bytes"
          , bytes_written := r "l2_write_bytes"
          , io_error := r "l2_io_error"
          , cksum_bad := r "l2_cksum_bad" } }

/-! ## Claim-side definitions and theorems -/

/-- A row's field `x[i]` exists and equals its `getD` default form. -/
theorem pyNth_of_lt {α : Type} (xs : List α) (i : Nat) (d : α) (h : i < xs.length) :
    pyNth xs i = .ok (xs.getD i d) := by
  unfold pyNth
  rw [List.getD_eq_getElem?_getD, List.get?_eq_getElem?, List.getElem?_eq_getElem h]
  rfl

/-- The spec-side slab aggregate: sum of the third field over the rows whose
third field is purely numeric. -/
def slabSum (rows : Rows) : Nat :=
  ((rows.filter (fun x => pyIsDigit (x.getD 2 ""))).map (fun x => digitsVal (x.getD 2 ""))).sum

theorem slabSum_cons (x : Row) (rows : Rows) :
    slabSum (x :: rows)
      = (if pyIsDigit (x.getD 2 "") then digitsVal (x.getD 2 "") else 0) + slabSum rows := by
  unfold slabSum
  rw [List.filter_cons]
  by_cases hd : pyIsDigit (x.getD 2 "")
  · rw [if_pos hd, if_pos hd, List.map_cons, List.sum_cons]
  · rw [if_neg hd, if_neg hd, Nat.zero_add]

theorem slabGo_ok (rows : Rows) : ∀ acc : Nat, (∀ x ∈ rows, 3 ≤ x.length) →
    rows.foldlM slabStep acc = .ok (acc + slabSum rows) := by
  induction rows with
  | nil => intro acc _; simp [slabSum, List.foldlM_nil]; rfl
  | cons x rows ih =>
      intro acc h
      have hx : 3 ≤ x.length := h x (List.mem_cons_self x rows)
      have hrest : ∀ y ∈ rows, 3 ≤ y.length := fun y hy => h y (List.mem_cons_of_mem x hy)
      have hstep : slabStep acc x =
          .ok (if pyIsDigit (x.getD 2 "") then acc + digitsVal (x.getD 2 "") else acc) := by
        unfold slabStep
        rw [pyNth_of_lt x 2 "" (by omega)]
      rw [List.foldlM_cons, hstep]
      show rows.foldlM slabStep _ = _
      by_cases hd : pyIsDigit (x.getD 2 "")
      · rw [if_pos hd, ih (acc + digitsVal (x.getD 2 "")) hrest, slabSum_cons, if_pos hd]
        congr 1
        omega
      · rw [if_neg hd, ih acc hrest, slabSum_cons, if_neg hd]
        congr 1
        omega

/-- C7 counterexample: a slab file whose (post-skip) row `a b` has only two
whitespace-split fields makes `slab_usage` raise an `IndexError` instead of
skipping the row — the claim's "never raises an error" is false. -/
theorem c7_counterexample :
    slab_usage ["h1", "h2", "a b"] = .error .indexError := by rfl

/-- C7 amended: for every slab file whose rows after the 2-line header skip
all have at least three whitespace-split fields, `slab_usage` returns the sum
of the third field of every row whose third field is purely numeric, skipping
the non-numeric ones, and never raises; a row with fewer than three fields
raises `IndexError` instead. -/
theorem c7_slab_sum (lines : List String)
    (h : ∀ x ∈ read_file lines 2, 3 ≤ x.length) :
    slab_usage lines = .ok (slabSum (read_file lines 2)) := by
  unfold slab_usage
  rw [slabGo_ok (read_file lines 2) 0 h]
  rw [Nat.zero_add]

/-- C7 witness: a concrete slab file with one numeric and one non-numeric row. -/
theorem c7_witness :
    slab_usage ["h1", "h2", "slab1 0x1 42 z", "slab2 0x2 x y"] = .ok 42 :=
  (c7_slab_sum ["h1", "h2", "slab1 0x1 42 z", "slab2 0x2 x y"] (by decide)).trans (by rfl)

/-- C9: when the selected stats file yields fewer than two rows after the
1-line header skip, indexing the header and value rows raises an unhandled
`IndexError`; the fallback guards only the first file read, so a present but
short `iostats` file is not rescued by a well-formed legacy file. -/
theorem c9_pool_io_short (ls : List String) (legacy : Option (List String))
    (h : (read_file ls 1).length < 2) :
    pool_io_stats ⟨some ls, legacy⟩ = .error .indexError
      ∧ pool_io_stats ⟨none, some ls⟩ = .error .indexError := by
  have hproc : ioProcess (read_file ls 1) = .error .indexError := by
    rcases hr : read_file ls 1 with _ | ⟨a, _ | ⟨b, t⟩⟩
    · rfl
    · rfl
    · rw [hr] at h
      simp [List.length_cons] at h
      omega
  exact ⟨hproc, hproc⟩

/-- C9 witness: an `iostats` file with no post-header rows aborts even though
the legacy file is present and well-formed. -/
theorem c9_witness :
    pool_io_stats ⟨some ["hdr"], some ["hdr", "nread nwritten", "1 2"]⟩ = .error .indexError
      ∧ pool_io_stats ⟨none, some ["hdr"]⟩ = .error .indexError :=
  c9_pool_io_short ["hdr"] (some ["hdr", "nread nwritten", "1 2"]) (by decide)

/-- The hit rates computed by `arc_stats`, with the `Nat` cast pushed in. -/
theorem arc_hitrate_eq (r : String → Nat) :
    (arc_stats r).l1.hitrate
        = (if r "hits" + r "misses" ≠ 0
            then (r "hits" : ℚ) / ((r "hits" : ℚ) + (r "misses" : ℚ)) * 100 else 0)
      ∧ (arc_stats r).l2.hitrate
        = (if r "l2_hits" + r "l2_misses" ≠ 0
            then (r "l2_hits" : ℚ) / ((r "l2_hits" : ℚ) + (r "l2_misses" : ℚ)) * 100 else 0) := by
  constructor
  · show (if r "hits" + r "misses" ≠ 0
        then (r "hits" : ℚ) / ((r "hits" + r "misses" : Nat) : ℚ) * 100 else 0) = _
    rw [Nat.cast_add]
  · show (if r "l2_hits" + r "l2_misses" ≠ 0
        then (r "l2_hits" : ℚ) / ((r "l2_hits" + r "l2_misses" : Nat) : ℚ) * 100 else 0) = _
    rw [Nat.cast_add]

/-- The ARC counter map of the C4 counterexample: 0 hits, 5 misses. -/
def arcEx : String → Nat := fun k => if k = "misses" then 5 else 0

/-- C4 counterexample: with 0 hits and 5 misses the tier-1 hit rate is 0 even
though the miss counter is nonzero, so "equals 0 exactly when both its hit and
miss counters are 0" fails in the zero-hits direction. -/
theorem c4_counterexample :
    (arc_stats arcEx).l1.hitrate = 0 ∧ ¬(arcEx "hits" = 0 ∧ arcEx "misses" = 0) := by
  refine ⟨?_, by decide⟩
  rw [(arc_hitrate_eq arcEx).1]
  have h1 : arcEx "hits" = 0 := rfl
  have h2 : arcEx "misses" = 5 := rfl
  rw [h1, h2]
  norm_num

/-- Bounds and zero-characterisation of the rational hit-rate expression. -/
theorem hitrateQ_props (h m : Nat) :
    0 ≤ (if h + m ≠ 0 then (h : ℚ) / ((h : ℚ) + (m : ℚ)) * 100 else 0)
      ∧ (if h + m ≠ 0 then (h : ℚ) / ((h : ℚ) + (m : ℚ)) * 100 else 0) ≤ 100
      ∧ ((if h + m ≠ 0 then (h : ℚ) / ((h : ℚ) + (m : ℚ)) * 100 else 0) = 0 ↔ h = 0) := by
  by_cases hm : h + m = 0
  · have h0 : h = 0 := by omega
    simp [hm, h0]
  · have hpos : (0 : ℚ) < (h : ℚ) + (m : ℚ) := by
      have : 0 < h + m := Nat.pos_of_ne_zero hm
      exact_mod_cast this
    rw [if_pos hm]
    refine ⟨by positivity, ?_, ?_⟩
    · have hle : (h : ℚ) / ((h : ℚ) + (m : ℚ)) ≤ 1 := by
        rw [div_le_one hpos]
        have : (0 : ℚ) ≤ (m : ℚ) := by positivity
        linarith
      calc (h : ℚ) / ((h : ℚ) + (m : ℚ)) * 100 ≤ 1 * 100 :=
            mul_le_mul_of_nonneg_right hle (by norm_num)
        _ = 100 := by norm_num
    · rw [mul_eq_zero, div_eq_zero_iff]
      constructor
      · rintro ((h0 | hd) | h100)
        · exact_mod_cast h0
        · exact absurd hd hpos.ne'
        · exact absurd h100 (by norm_num)
      · intro h0
        exact Or.inl (Or.inl (by exact_mod_cast h0))

/-- C4 amended: each tier's hit rate equals hits / (hits + misses) × 100 with
a zero default on zero denominator, always lies in [0, 100], and equals 0
exactly when the tier's hit counter is 0 (not: when both counters are 0). -/
theorem c4_arc_hitrate (r : String → Nat) :
    ((arc_stats r).l1.hitrate
        = (if r "hits" + r "misses" ≠ 0
            then (r "hits" : ℚ) / ((r "hits" : ℚ) + (r "misses" : ℚ)) * 100 else 0))
      ∧ 0 ≤ (arc_stats r).l1.hitrate
      ∧ (arc_stats r).l1.hitrate ≤ 100
      ∧ ((arc_stats r).l1.hitrate = 0 ↔ r "hits" = 0)
      ∧ ((arc_stats r).l2.hitrate
        = (if r "l2_hits" + r "l2_misses" ≠ 0
            then (r "l2_hits" : ℚ) / ((r "l2_hits" : ℚ) + (r "l2_misses" : ℚ)) * 100 else 0))
      ∧ 0 ≤ (arc_stats r).l2.hitrate
      ∧ (arc_stats r).l2.hitrate ≤ 100
      ∧ ((arc_stats r).l2.hitrate = 0 ↔ r "l2_hits" = 0) := by
  obtain ⟨e1, e2⟩ := arc_hitrate_eq r
  obtain ⟨p1, p2, p3⟩ := hitrateQ_props (r "hits") (r "misses")
  obtain ⟨q1, q2, q3⟩ := hitrateQ_props (r "l2_hits") (r "l2_misses")
  rw [e1, e2]
  exact ⟨rfl, p1, p2, p3, rfl, q1, q2, q3⟩

/-! ## Inversion helpers for the `Except` embedding -/

theorem bind_ok_inv {α β : Type} {x : Except PyErr α} {f : α → Except PyErr β} {b : β}
    (h : x >>= f = .ok b) : ∃ a, x = .ok a ∧ f a = .ok b := by
  cases x with
  | ok a => exact ⟨a, rfl, h⟩
  | error e => exact Except.noConfusion h

theorem pyNth_ok {α : Type} {xs : List α} {i : Nat} {a : α} (d : α)
    (h : pyNth xs i = .ok a) : xs.getD i d = a := by
  unfold pyNth at h
  cases hg : xs.get? i <;> rw [hg] at h
  · exact Except.noConfusion h
  · rw [List.getD_eq_getElem?_getD, ← List.get?_eq_getElem?, hg]
    exact Except.ok.inj h

theorem pyLookup_ok {α : Type} {m : List (String × α)} {k : String} {a : α}
    (h : pyLookup m k = .ok a) : dlookup m k = some a := by
  unfold pyLookup at h
  cases hg : dlookup m k <;> rw [hg] at h
  · exact Except.noConfusion h
  · rw [Except.ok.inj h]

/-- If some row of the list makes the step fail for every accumulator, the
whole monadic fold fails. -/
theorem foldlM_err {β : Type} (step : β → Row → Except PyErr β) (rows : Rows) (x : Row)
    (hx : x ∈ rows) (hstep : ∀ b, ∃ e, step b x = .error e) :
    ∀ b0 : β, ∃ e, rows.foldlM step b0 = .error e := by
  induction rows with
  | nil => cases hx
  | cons y tl ih =>
      intro b0
      rw [List.foldlM_cons]
      rcases List.mem_cons.mp hx with hxy | hxtl
      · subst hxy
        obtain ⟨e, he⟩ := hstep b0
        exact ⟨e, by rw [he]; rfl⟩
      · cases hy : step b0 y with
        | error e => exact ⟨e, rfl⟩
        | ok b1 =>
            obtain ⟨e, he⟩ := ih hxtl b1
            exact ⟨e, he⟩

/-! ## C5: the online flag is `ONLINE`-equality, for pools and devices -/

/-- C5: for every pool row whose record construction succeeds the online flag
is 1 iff the health string `x[7]` is exactly `ONLINE`, and for every retained
device row the online flag is 1 iff `x[9]` is exactly `ONLINE`; every other
string (case variants, `DEGRADED`, `FAULTED`, ...) gives 0. -/
theorem c5_online_flags :
    (∀ (scrub : List (String × Bool)) (fs : String → KFiles) (x : Row) (rec : PoolRec),
        poolRecord scrub fs x = .ok rec → (rec.online = 1 ↔ x.getD 7 "" = "ONLINE"))
      ∧ (∀ (errs : List (String × Errs)) (x : Row) (rec : VdevRec),
        vdevRecord errs x = .ok rec → (rec.online = 1 ↔ x.getD 9 "" = "ONLINE")) := by
  constructor
  · intro scrub fs x rec h
    unfold poolRecord at h
    obtain ⟨name, h0, h⟩ := bind_ok_inv h
    obtain ⟨s1, h1, h⟩ := bind_ok_inv h
    obtain ⟨size, h1b, h⟩ := bind_ok_inv h
    obtain ⟨s2, h2, h⟩ := bind_ok_inv h
    obtain ⟨alloc, h2b, h⟩ := bind_ok_inv h
    obtain ⟨s3, h3, h⟩ := bind_ok_inv h
    obtain ⟨free, h3b, h⟩ := bind_ok_inv h
    obtain ⟨s4, h4, h⟩ := bind_ok_inv h
    obtain ⟨frag, h4b, h⟩ := bind_ok_inv h
    obtain ⟨s5, h5, h⟩ := bind_ok_inv h
    obtain ⟨usage, h5b, h⟩ := bind_ok_inv h
    obtain ⟨s6, h6, h⟩ := bind_ok_inv h
    obtain ⟨dd, h6b, h⟩ := bind_ok_inv h
    obtain ⟨sc, hsc, h⟩ := bind_ok_inv h
    obtain ⟨h7, h7e, h⟩ := bind_ok_inv h
    obtain ⟨counters, hio, h⟩ := bind_ok_inv h
    cases h
    rw [pyNth_ok "" h7e]
    by_cases honline : h7 = "ONLINE" <;> simp [honline]
  · intro errs x rec h
    unfold vdevRecord at h
    obtain ⟨name, h0, h⟩ := bind_ok_inv h
    obtain ⟨s1, h1, h⟩ := bind_ok_inv h
    obtain ⟨s2, h2, h⟩ := bind_ok_inv h
    obtain ⟨s3, h3, h⟩ := bind_ok_inv h
    obtain ⟨s6, h6, h⟩ := bind_ok_inv h
    obtain ⟨s7, h7, h⟩ := bind_ok_inv h
    obtain ⟨h9, h9e, h⟩ := bind_ok_inv h
    obtain ⟨er, her, h⟩ := bind_ok_inv h
    cases h
    rw [pyNth_ok "" h9e]
    by_cases honline : h9 = "ONLINE" <;> simp [honline]

/-- Kernel stat files of the C5 witness pool. -/
def fsEx : String → KFiles := fun _ => ⟨some ["h", "nread", "7"], none⟩

/-- The pool record the C5 witness row builds. -/
def poolRecEx : PoolRec :=
  { name := "tank", size := 100, alloc := 40, free := 60, frag := 5, usage := 40,
    dedup := 3, scrub := 0, online := 1, ioCounters := [("nread", 7)] }

/-- C5 witness: a concrete successful pool row with health string `ONLINE`. -/
theorem c5_witness :
    poolRecord [("tank", false)] fsEx ["tank", "100", "40", "60", "5", "40", "3", "ONLINE"]
        = .ok poolRecEx
      ∧ (poolRecEx.online = 1
          ↔ ["tank", "100", "40", "60", "5", "40", "3", "ONLINE"].getD 7 "" = "ONLINE") :=
  ⟨by rfl,
   c5_online_flags.1 [("tank", false)] fsEx
     ["tank", "100", "40", "60", "5", "40", "3", "ONLINE"] poolRecEx (by rfl)⟩

/-! ## C6: the pool I/O stats extractor -/

theorem dlookup_cons {α : Type} (k' : String) (w : α) (tl : List (String × α)) (key : String) :
    dlookup ((k', w) :: tl) key = if k' = key then some w else dlookup tl key := rfl

theorem dlookup_eq_none_of_not_mem {α : Type} :
    ∀ (m : List (String × α)) (key : String), key ∉ m.map Prod.fst → dlookup m key = none := by
  intro m
  induction m with
  | nil => intro key _; rfl
  | cons kv tl ih =>
      intro key h
      obtain ⟨k', w⟩ := kv
      rw [List.map_cons, List.mem_cons] at h
      push_neg at h
      rw [dlookup_cons, if_neg (fun he => h.1 he.symm)]
      exact ih key h.2

theorem dlookup_some_mem {α : Type} :
    ∀ (m : List (String × α)) (k : String) (v : α), dlookup m k = some v → (k, v) ∈ m := by
  intro m
  induction m with
  | nil => intro k v h; exact Option.noConfusion h
  | cons kv tl ih =>
      intro k v h
      obtain ⟨k', w⟩ := kv
      rw [dlookup_cons] at h
      by_cases hk : k' = k
      · rw [if_pos hk] at h
        subst hk
        rw [Option.some.inj h]
        exact List.mem_cons_self _ _
      · rw [if_neg hk] at h
        exact List.mem_cons_of_mem _ (ih k v h)

theorem dlookup_of_mem_nodup {α : Type} :
    ∀ (m : List (String × α)) (k : String) (v : α),
      (m.map Prod.fst).Nodup → (k, v) ∈ m → dlookup m k = some v := by
  intro m
  induction m with
  | nil => intro k v _ hmem; cases hmem
  | cons kv tl ih =>
      intro k v hnd hmem
      obtain ⟨k', w⟩ := kv
      rw [List.map_cons, List.nodup_cons] at hnd
      rcases List.mem_cons.mp hmem with heq | htl
      · obtain ⟨hk, hv⟩ := Prod.mk.inj heq
        rw [dlookup_cons, if_pos hk.symm, hv]
      · have hkeys : k ∈ tl.map Prod.fst := List.mem_map.mpr ⟨(k, v), htl, rfl⟩
        have hne : k' ≠ k := fun he => hnd.1 (he ▸ hkeys)
        rw [dlookup_cons, if_neg hne]
        exact ih k v hnd.2 htl

/-- The keys of a zip are a sublist of the left list. -/
theorem zip_keys_sublist : ∀ (hrow vrow : List String),
    ((hrow.zip vrow).map Prod.fst).Sublist hrow := by
  intro hrow
  induction hrow with
  | nil => intro vrow; simp
  | cons a tl ih =>
      intro vrow
      cases vrow with
      | nil => simp
      | cons b vtl =>
          rw [List.zip_cons_cons, List.map_cons]
          exact List.Sublist.cons₂ a (ih vtl)

theorem ioStep_lookup_ne (m0 : List (String × Nat)) (k s name : String) (h : k ≠ name) :
    dlookup (ioStep m0 (k, s)) name = dlookup m0 name := by
  unfold ioStep
  by_cases hd : pyIsDigit s
  · rw [if_pos hd]
    exact dlookup_dinsert_ne m0 k name _ (Ne.symm h)
  · rw [if_neg hd]

/-- A name absent from the pair list is untouched by the whole fold. -/
theorem ioFold_lookup_none : ∀ (ps : List (String × String)) (m0 : List (String × Nat))
    (name : String), dlookup ps name = none →
    dlookup (ps.foldl ioStep m0) name = dlookup m0 name := by
  intro ps
  induction ps with
  | nil => intro m0 name _; rfl
  | cons p tl ih =>
      intro m0 name h
      obtain ⟨k, s⟩ := p
      rw [dlookup_cons] at h
      by_cases hk : k = name
      · rw [if_pos hk] at h; exact Option.noConfusion h
      · rw [if_neg hk] at h
        rw [List.foldl_cons, ih (ioStep m0 (k, s)) name h, ioStep_lookup_ne m0 k s name hk]

/-- A name whose (unique) value field is purely numeric ends up mapped to it. -/
theorem ioFold_lookup_digit : ∀ (ps : List (String × String)) (m0 : List (String × Nat))
    (name s : String), (ps.map Prod.fst).Nodup → dlookup ps name = some s →
    pyIsDigit s = true → dlookup (ps.foldl ioStep m0) name = some (digitsVal s) := by
  intro ps
  induction ps with
  | nil => intro m0 name s _ h _; exact Option.noConfusion h
  | cons p tl ih =>
      intro m0 name s hnd h hd
      obtain ⟨k, s'⟩ := p
      rw [List.map_cons, List.nodup_cons] at hnd
      rw [dlookup_cons] at h
      rw [List.foldl_cons]
      by_cases hk : k = name
      · rw [if_pos hk] at h
        subst hk
        rw [Option.some.inj h]
        have htl : dlookup tl k = none := dlookup_eq_none_of_not_mem tl k hnd.1
        rw [ioFold_lookup_none tl _ k htl]
        unfold ioStep
        rw [if_pos hd]
        exact dlookup_dinsert_self m0 k _
      · rw [if_neg hk] at h
        exact ih (ioStep m0 (k, s')) name s hnd.2 h hd

/-- A name whose (unique) value field is not numeric is omitted, leaving the
accumulator's binding. -/
theorem ioFold_lookup_nondigit : ∀ (ps : List (String × String)) (m0 : List (String × Nat))
    (name s : String), (ps.map Prod.fst).Nodup → dlookup ps name = some s →
    pyIsDigit s = false → dlookup (ps.foldl ioStep m0) name = dlookup m0 name := by
  intro ps
  induction ps with
  | nil => intro m0 name s _ h _; exact Option.noConfusion h
  | cons p tl ih =>
      intro m0 name s hnd h hd
      obtain ⟨k, s'⟩ := p
      rw [List.map_cons, List.nodup_cons] at hnd
      rw [dlookup_cons] at h
      rw [List.foldl_cons]
      by_cases hk : k = name
      · rw [if_pos hk] at h
        subst hk
        rw [Option.some.inj h]
        have htl : dlookup tl k = none := dlookup_eq_none_of_not_mem tl k hnd.1
        rw [ioFold_lookup_none tl _ k htl]
        unfold ioStep
        rw [if_neg (by rw [hd]; exact Bool.false_ne_true)]
      · rw [if_neg hk] at h
        rw [ih (ioStep m0 (k, s')) name s hnd.2 h hd, ioStep_lookup_ne m0 k s' name hk]

/-- C6: `pool_io_stats` reads the `iostats` file with a 1-line header skip and
falls back to the legacy `io` file with the same skip on any failure of the
first read (both files are processed by the very same `ioProcess`); on
success the resulting map binds a counter name to `n` exactly when the
positionally-zipped (header, value) pair for that name has a purely numeric
value field reading `n` — non-numeric or missing values are omitted, never
zero-filled. -/
theorem c6_pool_io :
    (∀ (ls : List String) (legacy : Option (List String)),
        pool_io_stats ⟨some ls, legacy⟩ = ioProcess (read_file ls 1))
      ∧ (∀ ls : List String, pool_io_stats ⟨none, some ls⟩ = ioProcess (read_file ls 1))
      ∧ pool_io_stats ⟨none, none⟩ = .error .ioError
      ∧ (∀ (hrow vrow : Row) (rest : Rows),
          ioProcess (hrow :: vrow :: rest) = .ok (ioPairs hrow vrow))
      ∧ (∀ (hrow vrow : Row) (name : String) (n : Nat), hrow.Nodup →
          (dlookup (ioPairs hrow vrow) name = some n ↔
            ∃ s, (name, s) ∈ hrow.zip vrow ∧ pyIsDigit s = true ∧ n = digitsVal s)) := by
  refine ⟨fun ls legacy => rfl, fun ls => rfl, rfl, fun hrow vrow rest => rfl, ?_⟩
  intro hrow vrow name n hnd
  have hk : ((hrow.zip vrow).map Prod.fst).Nodup :=
    List.Nodup.sublist (zip_keys_sublist hrow vrow) hnd
  unfold ioPairs
  constructor
  · intro hl
    cases hz : dlookup (hrow.zip vrow) name with
    | none =>
        rw [ioFold_lookup_none _ _ _ hz] at hl
        exact Option.noConfusion hl
    | some s =>
        cases hd : pyIsDigit s with
        | false =>
            rw [ioFold_lookup_nondigit _ _ _ _ hk hz hd] at hl
            exact Option.noConfusion hl
        | true =>
            rw [ioFold_lookup_digit _ _ _ _ hk hz hd] at hl
            exact ⟨s, dlookup_some_mem _ _ _ hz, hd, (Option.some.inj hl).symm⟩
  · rintro ⟨s, hmem, hd, rfl⟩
    have hz : dlookup (hrow.zip vrow) name = some s := dlookup_of_mem_nodup _ _ _ hk hmem
    exact ioFold_lookup_digit _ _ _ _ hk hz hd

/-- C6 witness: a concrete two-row stats file; `b`'s non-numeric value `x` is
omitted from the map while `a` maps to 1. -/
theorem c6_witness :
    List.Nodup ["a", "b", "c"]
      ∧ (dlookup (ioPairs ["a", "b", "c"] ["1", "x", "3"]) "a" = some 1 ↔
          ∃ s, ("a", s) ∈ (["a", "b", "c"].zip ["1", "x", "3"])
            ∧ pyIsDigit s = true ∧ 1 = digitsVal s) :=
  ⟨by decide, c6_pool_io.2.2.2.2 ["a", "b", "c"] ["1", "x", "3"] "a" 1 (by decide)⟩

/-! ## C3: missing correlation entries abort the builders -/

theorem headD_eq_getD (x : Row) : x.headD "" = x.getD 0 "" := by cases x <;> rfl

/-- A successful pool record implies its name was found in the scrub map. -/
theorem poolRecord_ok_scrub {scrub : List (String × Bool)} {fs : String → KFiles}
    {x : Row} {rec : PoolRec} (h : poolRecord scrub fs x = .ok rec) :
    ∃ b, dlookup scrub (x.headD "") = some b := by
  unfold poolRecord at h
  obtain ⟨name, h0, h⟩ := bind_ok_inv h
  obtain ⟨s1, h1, h⟩ := bind_ok_inv h
  obtain ⟨size, h1b, h⟩ := bind_ok_inv h
  obtain ⟨s2, h2, h⟩ := bind_ok_inv h
  obtain ⟨alloc, h2b, h⟩ := bind_ok_inv h
  obtain ⟨s3, h3, h⟩ := bind_ok_inv h
  obtain ⟨free, h3b, h⟩ := bind_ok_inv h
  obtain ⟨s4, h4, h⟩ := bind_ok_inv h
  obtain ⟨frag, h4b, h⟩ := bind_ok_inv h
  obtain ⟨s5, h5, h⟩ := bind_ok_inv h
  obtain ⟨usage, h5b, h⟩ := bind_ok_inv h
  obtain ⟨s6, h6, h⟩ := bind_ok_inv h
  obtain ⟨dd, h6b, h⟩ := bind_ok_inv h
  obtain ⟨sc, hsc, h⟩ := bind_ok_inv h
  refine ⟨sc, ?_⟩
  rw [headD_eq_getD, pyNth_ok "" h0]
  exact pyLookup_ok hsc

/-- A successful device record implies its path was found in the error map. -/
theorem vdevRecord_ok_errs {errs : List (String × Errs)} {x : Row} {rec : VdevRec}
    (h : vdevRecord errs x = .ok rec) : ∃ er, dlookup errs (x.headD "") = some er := by
  unfold vdevRecord at h
  obtain ⟨name, h0, h⟩ := bind_ok_inv h
  obtain ⟨s1, h1, h⟩ := bind_ok_inv h
  obtain ⟨s2, h2, h⟩ := bind_ok_inv h
  obtain ⟨s3, h3, h⟩ := bind_ok_inv h
  obtain ⟨s6, h6, h⟩ := bind_ok_inv h
  obtain ⟨s7, h7, h⟩ := bind_ok_inv h
  obtain ⟨h9, h9e, h⟩ := bind_ok_inv h
  obtain ⟨er, her, h⟩ := bind_ok_inv h
  refine ⟨er, ?_⟩
  rw [headD_eq_getD, pyNth_ok "" h0]
  exact pyLookup_ok her

/-- C3: the pool listing builder raises (rather than defaulting) whenever some
pool row's name has no entry in the scrub map, and the device listing builder
raises whenever some retained device row's path has no entry in the error
map. -/
theorem c3_correlation_faults :
    (∀ (scrub : List (String × Bool)) (fs : String → KFiles) (rows : Rows),
        (∃ x ∈ rows, dlookup scrub (x.headD "") = none) →
        ∃ e, pool_list scrub fs rows = .error e)
      ∧ (∀ (errs : List (String × Errs)) (rows : Rows),
        (∃ x ∈ rows, pyStartsWith (x.headD "") "/" = true ∧ dlookup errs (x.headD "") = none) →
        ∃ e, vdev_list errs rows = .error e) := by
  constructor
  · rintro scrub fs rows ⟨x, hx, hnone⟩
    unfold pool_list
    refine foldlM_err (poolStep scrub fs) rows x hx ?_ []
    intro m
    cases hrec : poolRecord scrub fs x with
    | error e => exact ⟨e, by unfold poolStep; rw [hrec]⟩
    | ok rec =>
        obtain ⟨b, hb⟩ := poolRecord_ok_scrub hrec
        rw [hnone] at hb
        exact Option.noConfusion hb
  · rintro errs rows ⟨x, hx, hstart, hnone⟩
    unfold vdev_list
    refine foldlM_err (vdevStep errs) rows x hx ?_ []
    intro m
    cases x with
    | nil => exact ⟨.indexError, rfl⟩
    | cons f tl =>
        have hf : pyStartsWith f "/" = true := hstart
        cases hrec : vdevRecord errs (f :: tl) with
        | error e => exact ⟨e, by simp only [vdevStep, hf, if_true, hrec]⟩
        | ok rec =>
            obtain ⟨er, her⟩ := vdevRecord_ok_errs hrec
            rw [hnone] at her
            exact Option.noConfusion her

/-- C3 witness: a pool row absent from an empty scrub map and a device row
absent from an empty error map both abort their builders. -/
theorem c3_witness :
    (∃ e, pool_list [] fsEx [["tank", "100", "40", "60", "5", "40", "3", "ONLINE"]]
        = .error e)
      ∧ (∃ e, vdev_list []
          [["/dev/sdb", "100", "40", "60", "x", "y", "3", "40", "z", "ONLINE"]] = .error e) :=
  ⟨c3_correlation_faults.1 [] fsEx [["tank", "100", "40", "60", "5", "40", "3", "ONLINE"]]
      ⟨["tank", "100", "40", "60", "5", "40", "3", "ONLINE"], by decide, by rfl⟩,
   c3_correlation_faults.2 []
      [["/dev/sdb", "100", "40", "60", "x", "y", "3", "40", "z", "ONLINE"]]
      ⟨["/dev/sdb", "100", "40", "60", "x", "y", "3", "40", "z", "ONLINE"],
        by decide, by decide, by rfl⟩⟩

/-! ## C8: device listing retention and zero-coercion -/

theorem exists_mem_cons {α : Type} (y : α) (tl : List α) (P : α → Prop) :
    (∃ x ∈ y :: tl, P x) ↔ P y ∨ ∃ x ∈ tl, P x := by
  constructor
  · rintro ⟨x, hx, hP⟩
    rcases List.mem_cons.mp hx with rfl | hx2
    · exact Or.inl hP
    · exact Or.inr ⟨x, hx2, hP⟩
  · rintro (hP | ⟨x, hx, hP⟩)
    · exact ⟨y, List.mem_cons_self y tl, hP⟩
    · exact ⟨x, List.mem_cons_of_mem y hx, hP⟩

theorem dlookup_dinsert_isSome_iff {α : Type} (m : List (String × α)) (k p : String) (v : α) :
    (dlookup (dinsert m k v) p).isSome = true ↔ (p = k ∨ (dlookup m p).isSome = true) := by
  rw [dlookup_dinsert]
  by_cases hp : p = k <;> simp [hp]

/-- Key membership in the accumulated device map of `vdev_list`: exactly the
initial keys plus the first fields of retained rows. -/
theorem vdevGo_keys (errs : List (String × Errs)) :
    ∀ (rows : Rows) (m0 m : List (String × VdevRec)) (p : String),
      rows.foldlM (vdevStep errs) m0 = .ok m →
      ((dlookup m p).isSome = true ↔
        ((dlookup m0 p).isSome = true
          ∨ ∃ x ∈ rows, x.headD "" = p ∧ pyStartsWith p "/" = true)) := by
  intro rows
  induction rows with
  | nil =>
      intro m0 m p h
      rw [List.foldlM_nil] at h
      obtain rfl : m0 = m := Except.ok.inj h
      simp
  | cons y tl ih =>
      intro m0 m p h
      rw [List.foldlM_cons] at h
      cases hy : vdevStep errs m0 y with
      | error e => rw [hy] at h; exact Except.noConfusion h
      | ok m1 =>
          rw [hy] at h
          have h' : tl.foldlM (vdevStep errs) m1 = .ok m := h
          rw [ih m1 m p h',
            exists_mem_cons y tl (fun x => x.headD "" = p ∧ pyStartsWith p "/" = true)]
          cases y with
          | nil => exact absurd hy (by simp [vdevStep])
          | cons f ytl =>
              by_cases hf : pyStartsWith f "/" = true
              · cases hrec : vdevRecord errs (f :: ytl) with
                | error e =>
                    have hst : vdevStep errs m0 (f :: ytl) = .error e := by
                      simp only [vdevStep, hf, if_true, hrec]
                    rw [hst] at hy
                    exact Except.noConfusion hy
                | ok rec =>
                    have hst : vdevStep errs m0 (f :: ytl) = .ok (dinsert m0 f rec) := by
                      simp only [vdevStep, hf, if_true, hrec]
                    rw [hst] at hy
                    obtain rfl : dinsert m0 f rec = m1 := Except.ok.inj hy
                    rw [dlookup_dinsert_isSome_iff]
                    have e3 : p = f ↔ ((f :: ytl).headD "" = p ∧ pyStartsWith p "/" = true) := by
                      constructor
                      · intro hpf; subst hpf; exact ⟨rfl, hf⟩
                      · rintro ⟨hfp, _⟩; exact hfp.symm
                    rw [e3]
                    tauto
              · have hst : vdevStep errs m0 (f :: ytl) = .ok m0 := by
                  simp [vdevStep, hf]
                rw [hst] at hy
                obtain rfl : m0 = m1 := Except.ok.inj hy
                have e4 : ¬((f :: ytl).headD "" = p ∧ pyStartsWith p "/" = true) := by
                  rintro ⟨hfp, hps⟩
                  have : f = p := hfp
                  rw [← this] at hps
                  exact hf hps
                tauto

/-- The numeric coercions performed by a successful device record: every
non-numeric field is zeroed. -/
theorem vdevRecord_fields (errs : List (String × Errs)) (x : Row) (rec : VdevRec)
    (h : vdevRecord errs x = .ok rec) :
    rec.size = (if pyIsDigit (x.getD 1 "") then digitsVal (x.getD 1 "") else 0)
      ∧ rec.alloc = (if pyIsDigit (x.getD 2 "") then digitsVal (x.getD 2 "") else 0)
      ∧ rec.free = (if pyIsDigit (x.getD 3 "") then digitsVal (x.getD 3 "") else 0)
      ∧ rec.frag = (if pyIsDigit (x.getD 6 "") then digitsVal (x.getD 6 "") else 0)
      ∧ rec.usage = (if pyIsDigit (x.getD 7 "") then digitsVal (x.getD 7 "") else 0) := by
  unfold vdevRecord at h
  obtain ⟨name, h0, h⟩ := bind_ok_inv h
  obtain ⟨s1, h1, h⟩ := bind_ok_inv h
  obtain ⟨s2, h2, h⟩ := bind_ok_inv h
  obtain ⟨s3, h3, h⟩ := bind_ok_inv h
  obtain ⟨s6, h6, h⟩ := bind_ok_inv h
  obtain ⟨s7, h7, h⟩ := bind_ok_inv h
  obtain ⟨h9, h9e, h⟩ := bind_ok_inv h
  obtain ⟨er, her, h⟩ := bind_ok_inv h
  cases h
  rw [pyNth_ok "" h1, pyNth_ok "" h2, pyNth_ok "" h3, pyNth_ok "" h6, pyNth_ok "" h7]
  exact ⟨rfl, rfl, rfl, rfl, rfl⟩

/-- C8: on success `vdev_list` keeps exactly the rows whose first field begins
with a path separator (its key set is exactly their first fields), and each
kept record zero-coerces every non-numeric size/allocated/free/fragmentation/
usage field instead of failing. -/
theorem c8_vdev_retention :
    (∀ (errs : List (String × Errs)) (rows : Rows) (m : List (String × VdevRec)) (p : String),
        vdev_list errs rows = .ok m →
        ((dlookup m p).isSome = true ↔
          ∃ x ∈ rows, x.headD "" = p ∧ pyStartsWith p "/" = true))
      ∧ (∀ (errs : List (String × Errs)) (x : Row) (rec : VdevRec),
        vdevRecord errs x = .ok rec →
        ((¬pyIsDigit (x.getD 1 "") = true → rec.size = 0)
          ∧ (¬pyIsDigit (x.getD 2 "") = true → rec.alloc = 0)
          ∧ (¬pyIsDigit (x.getD 3 "") = true → rec.free = 0)
          ∧ (¬pyIsDigit (x.getD 6 "") = true → rec.frag = 0)
          ∧ (¬pyIsDigit (x.getD 7 "") = true → rec.usage = 0))) := by
  constructor
  · intro errs rows m p h
    unfold vdev_list at h
    rw [vdevGo_keys errs rows [] m p h]
    simp [dlookup]
  · intro errs x rec h
    obtain ⟨e1, e2, e3, e4, e5⟩ := vdevRecord_fields errs x rec h
    exact ⟨fun hd => by rw [e1, if_neg hd],
           fun hd => by rw [e2, if_neg hd],
           fun hd => by rw [e3, if_neg hd],
           fun hd => by rw [e4, if_neg hd],
           fun hd => by rw [e5, if_neg hd]⟩

/-- The error map and rows of the C8 witness. -/
def errsEx : List (String × Errs) := [("/dev/sda", ⟨0, 0, 0⟩)]

/-- The device rows of the C8 witness: one pool-summary row, one device row
with dash/non-numeric placeholders. -/
def rowsEx : Rows :=
  [["tank", "1", "1", "1", "a", "b", "0", "0", "c", "ONLINE"],
   ["/dev/sda", "100", "-", "60", "x", "y", "3", "40", "z", "ONLINE"]]

/-- The record the C8 witness device row builds. -/
def vdevRecEx : VdevRec :=
  { name := "/dev/sda", size := 100, alloc := 0, free := 60, frag := 3, usage := 40,
    online := 1, errors := ⟨0, 0, 0⟩ }

/-- C8 witness: the pool-summary row is dropped, the device row is kept, and
its dash-valued allocated field is coerced to zero. -/
theorem c8_witness :
    ((dlookup [("/dev/sda", vdevRecEx)] "/dev/sda").isSome = true ↔
        ∃ x ∈ rowsEx, x.headD "" = "/dev/sda" ∧ pyStartsWith "/dev/sda" "/" = true)
      ∧ vdevRecEx.alloc = 0 :=
  ⟨c8_vdev_retention.1 errsEx rowsEx [("/dev/sda", vdevRecEx)] "/dev/sda" (by rfl),
   (c8_vdev_retention.2 errsEx ["/dev/sda", "100", "-", "60", "x", "y", "3", "40", "z", "ONLINE"]
      vdevRecEx (by rfl)).2.1 (by decide)⟩

/-! ## C2: the device-error map of `pool_status` -/

/-- The first fields of the device rows of a status report. -/
def devPaths (rows : Rows) : List String :=
  rows.filterMap
    (fun x => if 5 ≤ x.length ∧ pyStartsWith (x.headD "") "/" = true
              then some (x.headD "") else none)

theorem devPaths_cons (y : Row) (rows : Rows) :
    devPaths (y :: rows)
      = if 5 ≤ y.length ∧ pyStartsWith (y.headD "") "/" = true
        then y.headD "" :: devPaths rows else devPaths rows := by
  unfold devPaths
  rw [List.filterMap_cons]
  by_cases hc : 5 ≤ y.length ∧ pyStartsWith (y.headD "") "/" = true
  · rw [if_pos hc, if_pos hc]
  · rw [if_neg hc, if_neg hc]

theorem vdevErrStep_dev (m : List (String × Errs)) (x : Row) (hlen : 5 ≤ x.length)
    (hst : pyStartsWith (x.headD "") "/" = true) :
    vdevErrStep m x = dinsert m (x.headD "") (vdevRowRecord x) := by
  unfold vdevErrStep
  rw [if_neg (by omega),
    if_neg (fun hcontra => by rw [hst] at hcontra; exact Bool.noConfusion hcontra)]

theorem vdevErrStep_skip (m : List (String × Errs)) (x : Row)
    (h : ¬(5 ≤ x.length ∧ pyStartsWith (x.headD "") "/" = true)) :
    vdevErrStep m x = m := by
  unfold vdevErrStep
  by_cases hlen : x.length < 5
  · rw [if_pos hlen]
  · rw [if_neg hlen]
    have hst : ¬pyStartsWith (x.headD "") "/" = true := fun hs => h ⟨by omega, hs⟩
    rw [Bool.not_eq_true] at hst
    rw [if_pos (by rw [hst]; rfl)]

/-- Key preservation: a path that is no device row's first field is untouched
by the error fold. -/
theorem errFold_notmem : ∀ (rows : Rows) (m0 : List (String × Errs)) (p : String),
    p ∉ devPaths rows → dlookup (rows.foldl vdevErrStep m0) p = dlookup m0 p := by
  intro rows
  induction rows with
  | nil => intro m0 p _; rfl
  | cons y tl ih =>
      intro m0 p hp
      rw [devPaths_cons] at hp
      rw [List.foldl_cons]
      by_cases hc : 5 ≤ y.length ∧ pyStartsWith (y.headD "") "/" = true
      · rw [if_pos hc, List.mem_cons] at hp
        push_neg at hp
        rw [vdevErrStep_dev m0 y hc.1 hc.2, ih _ p hp.2,
          dlookup_dinsert_ne _ _ _ _ hp.1]
      · rw [if_neg hc] at hp
        rw [vdevErrStep_skip m0 y hc]
        exact ih m0 p hp

/-- Key monotonicity of the error fold. -/
theorem errFold_isSome : ∀ (rows : Rows) (m0 : List (String × Errs)) (p : String),
    (dlookup m0 p).isSome = true →
    (dlookup (rows.foldl vdevErrStep m0) p).isSome = true := by
  intro rows
  induction rows with
  | nil => intro m0 p h; exact h
  | cons y tl ih =>
      intro m0 p h
      rw [List.foldl_cons]
      by_cases hc : 5 ≤ y.length ∧ pyStartsWith (y.headD "") "/" = true
      · rw [vdevErrStep_dev m0 y hc.1 hc.2]
        exact ih _ p (dlookup_dinsert_isSome m0 _ p _ h)
      · rw [vdevErrStep_skip m0 y hc]
        exact ih m0 p h

/-- Every device row's path gets an entry in the error map. -/
theorem errFold_mem : ∀ (rows : Rows) (m0 : List (String × Errs)) (x : Row),
    x ∈ rows → 5 ≤ x.length → pyStartsWith (x.headD "") "/" = true →
    (dlookup (rows.foldl vdevErrStep m0) (x.headD "")).isSome = true := by
  intro rows
  induction rows with
  | nil => intro m0 x hx; cases hx
  | cons y tl ih =>
      intro m0 x hx hlen hst
      rw [List.foldl_cons]
      rcases List.mem_cons.mp hx with rfl | hxtl
      · rw [vdevErrStep_dev m0 x hlen hst]
        exact errFold_isSome tl _ _ (by rw [dlookup_dinsert_self]; rfl)
      · exact ih _ x hxtl hlen hst

/-- With pairwise-distinct device paths, each device row's path maps exactly
to the record parsed from that row. -/
theorem errFold_nodup_val : ∀ (rows : Rows) (m0 : List (String × Errs)) (x : Row),
    (devPaths rows).Nodup → x ∈ rows → 5 ≤ x.length →
    pyStartsWith (x.headD "") "/" = true →
    dlookup (rows.foldl vdevErrStep m0) (x.headD "") = some (vdevRowRecord x) := by
  intro rows
  induction rows with
  | nil => intro m0 x _ hx; cases hx
  | cons y tl ih =>
      intro m0 x hnd hx hlen hst
      rw [List.foldl_cons]
      rcases List.mem_cons.mp hx with rfl | hxtl
      · have hc : 5 ≤ x.length ∧ pyStartsWith (x.headD "") "/" = true := ⟨hlen, hst⟩
        rw [devPaths_cons, if_pos hc, List.nodup_cons] at hnd
        rw [vdevErrStep_dev m0 x hlen hst, errFold_notmem tl _ _ hnd.1,
          dlookup_dinsert_self]
      · have hnd2 : (devPaths tl).Nodup := by
          rw [devPaths_cons] at hnd
          by_cases hc : 5 ≤ y.length ∧ pyStartsWith (y.headD "") "/" = true
          · rw [if_pos hc, List.nodup_cons] at hnd
            exact hnd.2
          · rw [if_neg hc] at hnd
            exact hnd
        exact ih _ x hnd2 hxtl hlen hst

/-- A device row is inert for the scrub pass: its first field starts with `/`,
so it is neither a `pool:` nor a `scan:` marker. -/
theorem scrubStep_devRow (st : String × List (String × Bool)) (x : Row)
    (hlen : 5 ≤ x.length) (hst : pyStartsWith (x.headD "") "/" = true) :
    scrubStep st x = some st := by
  obtain ⟨cur, m⟩ := st
  cases x with
  | nil => simp at hlen
  | cons f rest =>
      have hf : pyStartsWith f "/" = true := hst
      have hfp : f ≠ "pool:" := by
        intro he; rw [he] at hf; exact absurd hf (by decide)
      have hfs : f ≠ "scan:" := by
        intro he; rw [he] at hf; exact absurd hf (by decide)
      simp only [scrubStep]
      rw [if_neg hfp, if_neg (by simp [hfs])]

/-- C2: every status-report row with at least 5 fields whose first field
begins with `/` yields an entry of the device-error map under its first
field; with pairwise-distinct device paths (the data model declares device
paths unique) the entry holds exactly that row's read/write/checksum fields
parsed as integers, defaulting to all zeroes if any parse fails; and the
scrub pass of the parser leaves its state untouched (never raises) on such a
row. -/
theorem c2_device_errors (rows : Rows) (x : Row) (hx : x ∈ rows)
    (hlen : 5 ≤ x.length) (hst : pyStartsWith (x.headD "") "/" = true) :
    (dlookup (pool_status_errors rows) (x.headD "")).isSome = true
      ∧ ((devPaths rows).Nodup →
          dlookup (pool_status_errors rows) (x.headD "") = some (vdevRowRecord x))
      ∧ (∀ st, scrubStep st x = some st) := by
  refine ⟨errFold_mem rows [] x hx hlen hst,
    fun hnd => errFold_nodup_val rows [] x hnd hx hlen hst,
    fun st => scrubStep_devRow st x hlen hst⟩

/-- C2 witness: a concrete well-formed device row and one with unparsable
counters, both present in the map; the second defaults to zeroes. -/
theorem c2_witness :
    (dlookup (pool_status_errors
        [["/dev/sda1", "ONLINE", "1", "2", "3"], ["/dev/sdb1", "ONLINE", "-", "-", "-"]])
        "/dev/sdb1").isSome = true
      ∧ dlookup (pool_status_errors
          [["/dev/sda1", "ONLINE", "1", "2", "3"], ["/dev/sdb1", "ONLINE", "-", "-", "-"]])
          "/dev/sdb1" = some ⟨0, 0, 0⟩
      ∧ scrubStep ("", []) ["/dev/sdb1", "ONLINE", "-", "-", "-"] = some ("", []) := by
  have h := c2_device_errors
    [["/dev/sda1", "ONLINE", "1", "2", "3"], ["/dev/sdb1", "ONLINE", "-", "-", "-"]]
    ["/dev/sdb1", "ONLINE", "-", "-", "-"] (by decide) (by decide) (by decide)
  exact ⟨h.1, (h.2.1 (by decide)).trans (by rfl), h.2.2 ("", [])⟩

/-! ## C10: a scrub-in-progress scan row before any pool marker -/

theorem scrubGo_nil (st : String × List (String × Bool)) : scrubGo st [] = some st := rfl

theorem scrubGo_cons (st : String × List (String × Bool)) (l : Row) (ls : Rows) :
    scrubGo st (l :: ls) = (scrubStep st l).bind (fun st1 => scrubGo st1 ls) := by
  unfold scrubGo
  rw [List.foldlM_cons]
  cases scrubStep st l <;> rfl

theorem scrubGo_append (a b : Rows) :
    ∀ st : String × List (String × Bool),
      scrubGo st (a ++ b) = (scrubGo st a).bind (fun st1 => scrubGo st1 b) := by
  induction a with
  | nil => intro st; rfl
  | cons y a ih =>
      intro st
      rw [List.cons_append, scrubGo_cons, scrubGo_cons]
      cases scrubStep st y with
      | none => rfl
      | some st1 => exact ih st1

/-- Inversion of one scrub step on a row that is not a `pool:` marker: the
current pool is unchanged and the map is unchanged or gains `cur ↦ true`. -/
theorem scrubStep_nonpool (cur : String) (m : List (String × Bool)) (y : Row)
    (st2 : String × List (String × Bool)) (hnp : y.headD "" ≠ "pool:")
    (h : scrubStep (cur, m) y = some st2) :
    st2.1 = cur ∧ (st2.2 = m ∨ st2.2 = dinsert m cur true) := by
  cases y with
  | nil => exact Option.noConfusion h
  | cons f rest =>
      have hf : f ≠ "pool:" := hnp
      simp only [scrubStep] at h
      rw [if_neg hf] at h
      by_cases hs : (f = "scan:" && String.intercalate " " (rest.take 3) = "scrub in progress")
          = true
      · rw [if_pos hs] at h
        rw [← Option.some.inj h]
        exact ⟨rfl, Or.inr rfl⟩
      · rw [if_neg hs] at h
        rw [← Option.some.inj h]
        exact ⟨rfl, Or.inl rfl⟩

/-- Inversion of one scrub step on a `pool:` marker row. -/
theorem scrubStep_pool (cur : String) (m : List (String × Bool)) (y : Row)
    (st2 : String × List (String × Bool)) (hp : y.headD "" = "pool:")
    (h : scrubStep (cur, m) y = some st2) :
    2 ≤ y.length ∧ st2 = (y.getD 1 "", dinsert m (y.getD 1 "") false) := by
  cases y with
  | nil => exact Option.noConfusion h
  | cons f rest =>
      have hf : f = "pool:" := hp
      simp only [scrubStep] at h
      rw [if_pos hf] at h
      cases rest with
      | nil => exact Option.noConfusion h
      | cons q qtl =>
          refine ⟨by simp [List.length_cons], ?_⟩
          rw [← Option.some.inj h]
          rfl

/-- Over a span with no `pool:` markers the current pool does not change. -/
theorem scrubGo_noPool_current : ∀ (pre : Rows) (cur : String)
    (m : List (String × Bool)) (st1 : String × List (String × Bool)),
    (∀ l ∈ pre, l.headD "" ≠ "pool:") → scrubGo (cur, m) pre = some st1 →
    st1.1 = cur := by
  intro pre
  induction pre with
  | nil =>
      intro cur m st1 _ h
      rw [← Option.some.inj h]
  | cons y tl ih =>
      intro cur m st1 hnp h
      rw [scrubGo_cons] at h
      cases hy : scrubStep (cur, m) y with
      | none => rw [hy] at h; exact Option.noConfusion h
      | some st2 =>
          rw [hy] at h
          obtain ⟨hc, hm⟩ :=
            scrubStep_nonpool cur m y st2 (hnp y (List.mem_cons_self y tl)) hy
          obtain ⟨c2, m2⟩ := st2
          cases hc
          exact ih c2 m2 st1 (fun l hl => hnp l (List.mem_cons_of_mem y hl)) h

/-- Once the scrub map sends `""` to `true`, it stays `true` through the rest
of the pass provided no `pool:` row names the empty pool. -/
theorem scrubGo_empty_true_preserved : ∀ (rows : Rows) (cur : String)
    (m : List (String × Bool)) (st' : String × List (String × Bool)),
    (∀ l ∈ rows, l.headD "" = "pool:" → l.getD 1 "" ≠ "") →
    dlookup m "" = some true → scrubGo (cur, m) rows = some st' →
    dlookup st'.2 "" = some true := by
  intro rows
  induction rows with
  | nil =>
      intro cur m st' _ hm h
      rw [← Option.some.inj h]
      exact hm
  | cons y tl ih =>
      intro cur m st' hwf hm h
      rw [scrubGo_cons] at h
      cases hy : scrubStep (cur, m) y with
      | none => rw [hy] at h; exact Option.noConfusion h
      | some st2 =>
          rw [hy] at h
          have hwf2 : ∀ l ∈ tl, l.headD "" = "pool:" → l.getD 1 "" ≠ "" :=
            fun l hl => hwf l (List.mem_cons_of_mem y hl)
          obtain ⟨c2, m2⟩ := st2
          by_cases hp : y.headD "" = "pool:"
          · obtain ⟨hylen, hy2⟩ := scrubStep_pool cur m y (c2, m2) hp hy
            have hq : y.getD 1 "" ≠ "" := hwf y (List.mem_cons_self y tl) hp
            obtain ⟨hc2, hm2⟩ := Prod.mk.inj hy2
            have hm2' : dlookup m2 "" = some true := by
              rw [hm2, dlookup_dinsert_ne _ _ _ _ (fun he => hq he.symm)]
              exact hm
            exact ih c2 m2 st' hwf2 hm2' h
          · obtain ⟨hc2, hm2⟩ := scrubStep_nonpool cur m y (c2, m2) hp hy
            have hm2' : dlookup m2 "" = some true := by
              rcases hm2 with hm2 | hm2
              · rw [show m2 = m from hm2]; exact hm
              · rw [show m2 = dinsert m cur true from hm2]
                by_cases hce : "" = cur
                · rw [← hce, dlookup_dinsert_self]
                · rw [dlookup_dinsert_ne _ _ _ _ hce]
                  exact hm
            exact ih c2 m2 st' hwf2 hm2' h

/-- C10: in any whitespace-split status report (so every `pool:` row names a
nonempty pool) in which a `scan: scrub in progress` row occurs before every
`pool:` marker, the scrub map binds the empty string — the initial implicit
current-pool scope — to `true`. -/
theorem c10_early_scan (pre post : Rows) (s : Row) (m : List (String × Bool))
    (hpre : ∀ l ∈ pre, l.headD "" ≠ "pool:")
    (hscan : s.headD "" = "scan:"
      ∧ String.intercalate " " (s.tail.take 3) = "scrub in progress")
    (hwf : ∀ l ∈ (pre ++ s :: post), l.headD "" = "pool:" → l.getD 1 "" ≠ "")
    (hok : pool_status_scrub (pre ++ s :: post) = some m) :
    dlookup m "" = some true := by
  unfold pool_status_scrub at hok
  cases hgo : scrubGo ("", []) (pre ++ s :: post) with
  | none => rw [hgo] at hok; exact Option.noConfusion hok
  | some st' =>
      rw [hgo] at hok
      obtain rfl : st'.2 = m := Option.some.inj hok
      rw [scrubGo_append] at hgo
      cases hpre' : scrubGo ("", []) pre with
      | none => rw [hpre'] at hgo; exact Option.noConfusion hgo
      | some st1 =>
          rw [hpre'] at hgo
          have hcur : st1.1 = "" := scrubGo_noPool_current pre "" [] st1 hpre hpre'
          obtain ⟨c1, m1⟩ := st1
          cases hcur
          rw [show ((some (("" : String), m1)).bind (fun st1 => scrubGo st1 (s :: post)))
              = scrubGo ("", m1) (s :: post) from rfl, scrubGo_cons] at hgo
          cases s with
          | nil => exact absurd hscan.1 (by decide)
          | cons f rest =>
              have hf : f = "scan:" := hscan.1
              have hcond : (f = "scan:"
                  && String.intercalate " " (rest.take 3) = "scrub in progress") = true := by
                rw [hf]
                exact (by simpa using hscan.2)
              have hstep : scrubStep ("", m1) (f :: rest)
                  = some ("", dinsert m1 "" true) := by
                simp only [scrubStep]
                rw [if_neg (by rw [hf]; decide), if_pos hcond]
              rw [hstep] at hgo
              refine scrubGo_empty_true_preserved post "" (dinsert m1 "" true) st'
                (fun l hl => hwf l ?_) (dlookup_dinsert_self m1 "" true) hgo
              exact List.mem_append_right pre (List.mem_cons_of_mem (f :: rest) hl)

/-- C10 witness: a neutral row, then an early scan row, then a pool marker. -/
theorem c10_witness :
    pool_status_scrub [["x"], ["scan:", "scrub", "in", "progress"], ["pool:", "tank"]]
        = some [("", true), ("tank", false)]
      ∧ dlookup [(("" : String), true), ("tank", false)] "" = some true :=
  ⟨by rfl,
   c10_early_scan [["x"]] [["pool:", "tank"]] ["scan:", "scrub", "in", "progress"]
     [("", true), ("tank", false)] (by decide) (by decide) (by decide) (by rfl)⟩

/-! ## C1: the scrub map of the pool status parser -/

/-- The pool names introduced by `pool:` marker rows, in order. -/
def poolNames (rows : Rows) : List String :=
  rows.filterMap (fun l => if l.headD "" = "pool:" then some (l.getD 1 "") else none)

theorem poolNames_nil : poolNames [] = [] := rfl

theorem poolNames_cons_pool (l : Row) (ls : Rows) (h : l.headD "" = "pool:") :
    poolNames (l :: ls) = l.getD 1 "" :: poolNames ls := by
  unfold poolNames
  rw [List.filterMap_cons, if_pos h]

theorem poolNames_cons_other (l : Row) (ls : Rows) (h : ¬l.headD "" = "pool:") :
    poolNames (l :: ls) = poolNames ls := by
  unfold poolNames
  rw [List.filterMap_cons, if_neg h]

/-- A row that reads `scan: scrub in progress ...`. -/
def isScanProg (l : Row) : Bool :=
  (l.headD "" = "scan:") && (String.intercalate " " (l.tail.take 3) = "scrub in progress")

/-- Claim-side scope semantics: starting from current pool `cur`, some
scrub-in-progress scan row occurs while the current pool (as updated by the
`pool:` markers already passed) is `p`. -/
def scanScopeB (cur p : String) : Rows → Bool
  | [] => false
  | l :: ls =>
      (isScanProg l && (cur = p))
        || scanScopeB (if l.headD "" = "pool:" then l.getD 1 "" else cur) p ls

theorem scanScopeB_cons_pool (cur p : String) (l : Row) (ls : Rows)
    (h : l.headD "" = "pool:") :
    scanScopeB cur p (l :: ls) = scanScopeB (l.getD 1 "") p ls := by
  have hne : ("pool:" : String) ≠ "scan:" := by decide
  have hns : isScanProg l = false := by
    unfold isScanProg
    rw [h]
    simp [hne]
  simp only [scanScopeB]
  rw [hns, Bool.false_and, Bool.false_or, if_pos h]

theorem scanScopeB_cons_scan (cur p : String) (l : Row) (ls : Rows)
    (hs : isScanProg l = true) (hnp : ¬l.headD "" = "pool:") :
    scanScopeB cur p (l :: ls) = (decide (cur = p) || scanScopeB cur p ls) := by
  simp only [scanScopeB]
  rw [hs, Bool.true_and, if_neg hnp]

theorem scanScopeB_cons_other (cur p : String) (l : Row) (ls : Rows)
    (hs : isScanProg l = false) (hnp : ¬l.headD "" = "pool:") :
    scanScopeB cur p (l :: ls) = scanScopeB cur p ls := by
  simp only [scanScopeB]
  rw [hs, Bool.false_and, Bool.false_or, if_neg hnp]

/-- A scope flag can only be raised for the initial current pool or for an
introduced pool name. -/
theorem scanScopeB_true_imp : ∀ (rows : Rows) (cur p : String),
    scanScopeB cur p rows = true → p = cur ∨ p ∈ poolNames rows := by
  intro rows
  induction rows with
  | nil => intro cur p h; exact absurd h (by simp [scanScopeB])
  | cons l ls ih =>
      intro cur p h
      simp only [scanScopeB, Bool.or_eq_true, Bool.and_eq_true] at h
      by_cases hp : l.headD "" = "pool:"
      · rw [if_pos hp] at h
        rcases h with ⟨_, hcp⟩ | h2
        · exact Or.inl (of_decide_eq_true hcp).symm
        · rcases ih (l.getD 1 "") p h2 with h3 | h3
          · exact Or.inr (by rw [poolNames_cons_pool l ls hp, h3]; exact List.mem_cons_self _ _)
          · exact Or.inr (by rw [poolNames_cons_pool l ls hp]; exact List.mem_cons_of_mem _ h3)
      · rw [if_neg hp] at h
        rcases h with ⟨_, hcp⟩ | h2
        · exact Or.inl (of_decide_eq_true hcp).symm
        · rcases ih cur p h2 with h3 | h3
          · exact Or.inl h3
          · exact Or.inr (by rw [poolNames_cons_other l ls hp]; exact h3)

/-- Exact inversion of one scrub step on a row that is not a `pool:` marker. -/
theorem scrubStep_nonpool_exact (cur : String) (m : List (String × Bool)) (y : Row)
    (st2 : String × List (String × Bool)) (hnp : ¬y.headD "" = "pool:")
    (h : scrubStep (cur, m) y = some st2) :
    st2 = (cur, if isScanProg y then dinsert m cur true else m) := by
  cases y with
  | nil => exact Option.noConfusion h
  | cons f rest =>
      have hf : f ≠ "pool:" := hnp
      have hcond : isScanProg (f :: rest)
          = (f = "scan:" && String.intercalate " " (rest.take 3) = "scrub in progress") := by
        simp [isScanProg]
      simp only [scrubStep] at h
      rw [if_neg hf] at h
      by_cases hs : (f = "scan:" && String.intercalate " " (rest.take 3) = "scrub in progress")
          = true
      · rw [if_pos hs] at h
        rw [← Option.some.inj h, hcond, hs, if_pos rfl]
      · rw [if_neg hs] at h
        rw [← Option.some.inj h, hcond]
        rw [Bool.not_eq_true] at hs
        rw [hs, if_neg (by simp)]

/-- Master characterisation of the scrub fold: the final binding of every key
`p` in terms of the introduced pool names, the scope semantics, and the
initial accumulator. -/
theorem scrubGo_char : ∀ (rows : Rows) (cur : String) (m : List (String × Bool))
    (st' : String × List (String × Bool)),
    (poolNames rows).Nodup → cur ∉ poolNames rows →
    scrubGo (cur, m) rows = some st' →
    ∀ (p : String) (b : Bool),
      (dlookup st'.2 p = some b ↔
        ((p ∈ poolNames rows ∧ b = scanScopeB cur p rows)
          ∨ (p ∉ poolNames rows ∧ scanScopeB cur p rows = true ∧ b = true)
          ∨ (p ∉ poolNames rows ∧ scanScopeB cur p rows = false ∧ dlookup m p = some b))) := by
  intro rows
  induction rows with
  | nil =>
      intro cur m st' _ _ h p b
      rw [← Option.some.inj h]
      simp [poolNames_nil, scanScopeB]
  | cons l ls ih =>
      intro cur m st' hnd hcur h p b
      rw [scrubGo_cons] at h
      cases hstep : scrubStep (cur, m) l with
      | none => rw [hstep] at h; exact Option.noConfusion h
      | some st1 =>
          rw [hstep] at h
          have h' : scrubGo st1 ls = some st' := h
          by_cases hp : l.headD "" = "pool:"
          · obtain ⟨hlen2, hst1⟩ := scrubStep_pool cur m l st1 hp hstep
            subst hst1
            rw [poolNames_cons_pool l ls hp] at hnd hcur
            rw [poolNames_cons_pool l ls hp, scanScopeB_cons_pool cur p l ls hp]
            have hqn : l.getD 1 "" ∉ poolNames ls := (List.nodup_cons.mp hnd).1
            have hnd2 : (poolNames ls).Nodup := (List.nodup_cons.mp hnd).2
            rw [List.mem_cons] at hcur
            push_neg at hcur
            rw [ih (l.getD 1 "") (dinsert m (l.getD 1 "") false) st' hnd2 hqn h' p b]
            by_cases hpq : p = l.getD 1 ""
            · subst hpq
              rw [dlookup_dinsert_self]
              cases hS : scanScopeB (l.getD 1 "") (l.getD 1 "") ls <;> cases b <;>
                simp [hqn, hS, List.mem_cons] <;> tauto
            · rw [dlookup_dinsert_ne m _ p false hpq]
              have hmem : (p ∈ l.getD 1 "" :: poolNames ls) ↔ p ∈ poolNames ls := by
                rw [List.mem_cons]
                exact ⟨fun hc => hc.elim (fun he => absurd he hpq) id, Or.inr⟩
              rw [hmem]
          · have hst1 := scrubStep_nonpool_exact cur m l st1 hp hstep
            subst hst1
            rw [poolNames_cons_other l ls hp] at hnd hcur
            rw [poolNames_cons_other l ls hp]
            cases hsc : isScanProg l with
            | false =>
                rw [scanScopeB_cons_other cur p l ls hsc hp]
                simp only [hsc] at h'
                rw [if_neg (by simp)] at h'
                exact ih cur m st' hnd hcur h' p b
            | true =>
                rw [scanScopeB_cons_scan cur p l ls hsc hp]
                simp only [hsc] at h'
                rw [if_pos trivial] at h'
                rw [ih cur (dinsert m cur true) st' hnd hcur h' p b]
                by_cases hpc : p = cur
                · subst hpc
                  rw [dlookup_dinsert_self]
                  cases hS : scanScopeB p p ls <;> cases b <;>
                    simp [hcur, hS]
                · rw [dlookup_dinsert_ne m cur p true hpc]
                  have hdec : (decide (cur = p) || scanScopeB cur p ls)
                      = scanScopeB cur p ls := by
                    rw [decide_eq_false (fun he => hpc he.symm), Bool.false_or]
                  rw [hdec]

/-- C1 counterexample: a report consisting of the single row
`scan: scrub in progress` produces a scrub map containing the key `""` even
though no row introduces any pool name, so the map does not contain exactly
the pool names of the `pool:` rows. -/
theorem c1_counterexample :
    pool_status_scrub [["scan:", "scrub", "in", "progress"]] = some [("", true)]
      ∧ poolNames [["scan:", "scrub", "in", "progress"]] = [] := ⟨rfl, rfl⟩

/-- C1 amended: for whitespace-split reports (no `pool:` row names the empty
string) with pairwise-distinct pool names, the scrub map binds `p` to `b` iff
`p` is an introduced pool name — or `p` is the empty string and a
scrub-in-progress scan row occurs in the initial (empty-string) scope — and
`b` is the scope flag of `p`: true iff a `scan: scrub in progress` row occurs
while the current pool is `p`.  In particular every introduced pool is
present, initialised to false, and flagged true exactly by a scan row in its
scope. -/
theorem c1_scrub_map (rows : Rows) (m : List (String × Bool)) (p : String) (b : Bool)
    (hnd : (poolNames rows).Nodup) (hemp : "" ∉ poolNames rows)
    (hok : pool_status_scrub rows = some m) :
    dlookup m p = some b ↔
      ((p ∈ poolNames rows ∨ (p = "" ∧ scanScopeB "" "" rows = true))
        ∧ b = scanScopeB "" p rows) := by
  unfold pool_status_scrub at hok
  cases hgo : scrubGo ("", []) rows with
  | none => rw [hgo] at hok; exact Option.noConfusion hok
  | some st' =>
      rw [hgo] at hok
      obtain rfl : st'.2 = m := Option.some.inj hok
      rw [scrubGo_char rows "" [] st' hnd hemp hgo p b]
      constructor
      · rintro (⟨hmem, hb⟩ | ⟨hmem, hS, hb⟩ | ⟨_, _, hnil⟩)
        · exact ⟨Or.inl hmem, hb⟩
        · have hp0 : p = "" := by
            rcases scanScopeB_true_imp rows "" p hS with h0 | h0
            · exact h0
            · exact absurd h0 hmem
          subst hp0
          exact ⟨Or.inr ⟨rfl, hS⟩, by rw [hb, hS]⟩
        · exact absurd hnil (by simp [dlookup])
      · rintro ⟨hmem | ⟨hp0, hS⟩, hb⟩
        · exact Or.inl ⟨hmem, hb⟩
        · subst hp0
          exact Or.inr (Or.inl ⟨hemp, hS, by rw [hb, hS]⟩)

/-- C1 witness: the two-pool scenario of the spec, looked up at `tank`. -/
theorem c1_witness :
    dlookup [("tank", true), ("backup", false)] "tank" = some true ↔
      (("tank" ∈ poolNames [["pool:", "tank"],
          ["scan:", "scrub", "in", "progress", "since", "Mon"], ["pool:", "backup"]]
        ∨ ("tank" = ""
            ∧ scanScopeB "" "" [["pool:", "tank"],
                ["scan:", "scrub", "in", "progress", "since", "Mon"],
                ["pool:", "backup"]] = true))
        ∧ true = scanScopeB "" "tank" [["pool:", "tank"],
            ["scan:", "scrub", "in", "progress", "since", "Mon"], ["pool:", "backup"]]) :=
  c1_scrub_map
    [["pool:", "tank"], ["scan:", "scrub", "in", "progress", "since", "Mon"],
      ["pool:", "backup"]]
    [("tank", true), ("backup", false)] "tank" true (by decide) (by decide) (by rfl)
